import Mathlib

/-!
Verification development for the btrfs send-stream replay core of the
`file_search` repository.  The Rust sources under `src/` are shallowly
embedded: byte sources become `List Nat` (each element one byte), reader
positions are threaded explicitly, `std::io::Result` becomes `Except PErr`,
and loops become fuel-indexed structural recursions whose fuel is chosen
strictly larger than the number of iterations the loop can perform (every
iteration of each embedded loop consumes at least one input byte, and the
fuel is one more than the number of input bytes; fuel-sufficiency lemmas
are proved below where a theorem depends on it).
-/

namespace FileSearch

/-! ### MixedString (src/mixed.rs)

`Mixed::String` holds a Rust `String`; it is represented here by the list of
its UTF-8 bytes, which is exactly what `to_bytes` extracts from it. -/

inductive Mixed where
  | mstr (s : List Nat)
  | mbyte (b : List Nat)
  | unexpectedEOF
  deriving DecidableEq

structure MixedString where
  data : List Mixed
  deriving DecidableEq

/-- Continuation byte test used by Rust core's UTF-8 validator
(`b as i8 < -64` means `0x80 ≤ b ≤ 0xBF`). -/
def isCont (b : Nat) : Prop := 0x80 ≤ b ∧ b ≤ 0xBF

instance (b : Nat) : Decidable (isCont b) := by
  unfold isCont; infer_instance

/-- Result of validating one UTF-8 character: `ok k` consumed `k` bytes of a
well-formed character, `bad k` reports a maximal ill-formed subsequence of
`k` bytes (Rust's `Utf8Error::error_len = Some(k)`), `incomplete` reports a
truncated-but-so-far-valid tail (`error_len = None`). -/
inductive CharRes where
  | ok (k : Nat)
  | bad (k : Nat)
  | incomplete
  deriving DecidableEq

/-- One character step of Rust core's `run_utf8_validation`, given the first
byte `w` and the remaining bytes `rest`. -/
def classifyChar (w : Nat) (rest : List Nat) : CharRes :=
  if w < 0x80 then .ok 1
  else if 0xC2 ≤ w ∧ w ≤ 0xDF then
    match rest with
    | [] => .incomplete
    | b1 :: _ => if isCont b1 then .ok 2 else .bad 1
  else if 0xE0 ≤ w ∧ w ≤ 0xEF then
    match rest with
    | [] => .incomplete
    | b1 :: rest1 =>
      if (w = 0xE0 ∧ 0xA0 ≤ b1 ∧ b1 ≤ 0xBF) ∨ (0xE1 ≤ w ∧ w ≤ 0xEC ∧ isCont b1)
          ∨ (w = 0xED ∧ 0x80 ≤ b1 ∧ b1 ≤ 0x9F) ∨ (0xEE ≤ w ∧ w ≤ 0xEF ∧ isCont b1) then
        match rest1 with
        | [] => .incomplete
        | b2 :: _ => if isCont b2 then .ok 3 else .bad 2
      else .bad 1
  else if 0xF0 ≤ w ∧ w ≤ 0xF4 then
    match rest with
    | [] => .incomplete
    | b1 :: rest1 =>
      if (w = 0xF0 ∧ 0x90 ≤ b1 ∧ b1 ≤ 0xBF) ∨ (0xF1 ≤ w ∧ w ≤ 0xF3 ∧ isCont b1)
          ∨ (w = 0xF4 ∧ 0x80 ≤ b1 ∧ b1 ≤ 0x8F) then
        match rest1 with
        | [] => .incomplete
        | b2 :: rest2 =>
          if isCont b2 then
            match rest2 with
            | [] => .incomplete
            | b3 :: _ => if isCont b3 then .ok 4 else .bad 3
          else .bad 2
      else .bad 1
  else .bad 1

/-- Fuelled loop of `std::str::from_utf8`'s validator: returns `none` when the
whole input is valid UTF-8, and `some (valid_up_to, error_len)` otherwise.
Every iteration consumes at least one byte, so fuel `length + 1` (as supplied
by `utf8Validate`) never runs out; the fuel-0 branch is unreachable there. -/
def utf8ValidateGo : Nat → List Nat → Nat → Option (Nat × Option Nat)
  | 0, _, _ => none
  | _ + 1, [], _ => none
  | fuel + 1, w :: rest, acc =>
    match classifyChar w rest with
    | .ok k => utf8ValidateGo fuel (List.drop (k - 1) rest) (acc + k)
    | .bad k => some (acc, some k)
    | .incomplete => some (acc, none)

/-- Model of `std::str::from_utf8` restricted to its error report. -/
def utf8Validate (l : List Nat) : Option (Nat × Option Nat) :=
  utf8ValidateGo (l.length + 1) l 0

/-- Fuelled loop of `MixedString::from_bytes` (src/mixed.rs lines 19-54).
Every iteration consumes at least one byte (`error_len ≥ 1`), so fuel
`length + 1` never runs out. -/
def fromBytesGo : Nat → List Nat → List Mixed
  | 0, _ => []
  | fuel + 1, input =>
    match utf8Validate input with
    | none => [Mixed.mstr input]
    | some (validUpTo, some invalidSequenceLength) =>
      (if input.take validUpTo = [] then [] else [Mixed.mstr (input.take validUpTo)])
        ++ [Mixed.mbyte ((input.drop validUpTo).take invalidSequenceLength)]
        ++ fromBytesGo fuel ((input.drop validUpTo).drop invalidSequenceLength)
    | some (validUpTo, none) =>
      (if input.take validUpTo = [] then [] else [Mixed.mstr (input.take validUpTo)])
        ++ [Mixed.mbyte (input.drop validUpTo), Mixed.unexpectedEOF]

/-- `MixedString::from_bytes` (src/mixed.rs lines 19-54). -/
def MixedString.from_bytes (input : List Nat) : MixedString :=
  ⟨fromBytesGo (input.length + 1) input⟩

/-- Bytes contributed by one segment in `MixedString::to_bytes`:
UTF-8 segments contribute their bytes, raw segments theirs, the
truncation marker nothing. -/
def Mixed.toBytes : Mixed → List Nat
  | .mstr s => s
  | .mbyte b => b
  | .unexpectedEOF => []

def segBytes (l : List Mixed) : List Nat :=
  (l.map Mixed.toBytes).flatten

/-- `MixedString::to_bytes` (src/mixed.rs lines 81-91). -/
def MixedString.to_bytes (m : MixedString) : List Nat :=
  segBytes m.data

def Mixed.isStr : Mixed → Bool
  | .mstr _ => true
  | _ => false

def Mixed.isByte : Mixed → Bool
  | .mbyte _ => true
  | _ => false

/-- Two adjacent segments of these kinds could be merged into one segment of
the same kind (the notion used by the spec's 'coarsest segmentation'). -/
def sameMergeableKind (a b : Mixed) : Bool :=
  (a.isStr && b.isStr) || (a.isByte && b.isByte)

/-- The spec's claimed invariant: no two adjacent segments share a mergeable
kind. -/
def coarsest : List Mixed → Bool
  | a :: b :: rest => !sameMergeableKind a b && coarsest (b :: rest)
  | _ => true

/-- The weaker invariant that does hold of `from_bytes`: no two adjacent
segments are both UTF-8 string segments. -/
def noTwoStr : List Mixed → Bool
  | a :: b :: rest => !(a.isStr && b.isStr) && noTwoStr (b :: rest)
  | _ => true

/-! ### Timestamps

Modelled from the spec and the chrono 0.4 crate (an external dependency, not
part of `src/`): `NaiveDateTime` is represented by seconds since the Unix
epoch plus the sub-second nanoseconds, which determines it uniquely. -/

structure Timestamp where
  secs : Int
  nanos : Nat
  deriving DecidableEq

/-- Days since 1970-01-01 of the civil date `y-m-d` (proleptic Gregorian),
the standard `days_from_civil` algorithm; used to express chrono's calendar
arithmetic and the `99999-12-31` sentinel numerically. -/
def daysFromCivil (y m d : Int) : Int :=
  let yAdj := if m ≤ 2 then y - 1 else y
  let era := yAdj.fdiv 400
  let yoe := yAdj - era * 400
  let mp := (m + 9) % 12
  let doy := (153 * mp + 2).fdiv 5 + d - 1
  let doe := yoe * 365 + yoe.fdiv 4 - yoe.fdiv 100 + doy
  era * 146097 + doe - 719468

/-- Seconds since the Unix epoch of `y-m-d h:mi:s` UTC. -/
def civilSecs (y m d h mi s : Int) : Int :=
  daysFromCivil y m d * 86400 + h * 3600 + mi * 60 + s

/-- Modelled from chrono 0.4: the smallest epoch-second representable by a
`NaiveDateTime` (midnight of `NaiveDate::MIN` = -262144-01-01). -/
def chronoMinSecs : Int := civilSecs (-262144) 1 1 0 0 0

/-- Modelled from chrono 0.4: the largest epoch-second representable by a
`NaiveDateTime` (23:59:59 of `NaiveDate::MAX` = 262143-12-31). -/
def chronoMaxSecs : Int := civilSecs 262143 12 31 23 59 59

/-- Modelled from chrono 0.4 `NaiveDateTime::from_timestamp_opt`: valid iff
the nanosecond field is below 2·10⁹ (values above 10⁹ encode leap seconds)
and the seconds fall inside the representable date range. -/
def from_timestamp_opt (secs : Int) (nsecs : Nat) : Option Timestamp :=
  if nsecs < 2000000000 ∧ chronoMinSecs ≤ secs ∧ secs ≤ chronoMaxSecs then
    some ⟨secs, nsecs⟩
  else none

/-- Modelled from num_traits `i64::from_u64` (a checked conversion: `none`
when the value does not fit in an `i64`). -/
def i64_from_u64 (s : Nat) : Option Int :=
  if s < 2 ^ 63 then some (s : Int) else none

/-! ### Data model (src/model.rs) -/

inductive FileType where
  | file | directory | symlink | blockDevice | charDevice | fifo | socket | unknown
  deriving DecidableEq

structure FileInfo where
  filename : MixedString
  permissions : Nat
  modified : Timestamp
  accessed : Timestamp
  created : Timestamp
  length : Nat
  user_id : Nat
  group_id : Nat
  filetype : FileType
  deriving DecidableEq

inductive SubvolumeSource where
  | btrfs (uuid : Nat)
  | find (path : MixedString)
  deriving DecidableEq

/-- The `files` HashMap, modelled extensionally: `none` means the key is
absent, `some none` is a present key holding the tombstone `None`, and
`some (some info)` is a present file. -/
def Files : Type := MixedString → Option (Option FileInfo)

def Files.empty : Files := fun _ => none

def Files.insert (m : Files) (k : MixedString) (v : Option FileInfo) : Files :=
  fun k' => if k' = k then some v else m k'

def Files.erase (m : Files) (k : MixedString) : Files :=
  fun k' => if k' = k then none else m k'

structure SubvolumeInfo where
  source : SubvolumeSource
  overwrite : Bool
  files : Files

/-! ### Error model

`std::io` errors are abstracted to their kind; the diagnostic message
strings do not influence control flow. -/

inductive PErr where
  | unexpectedEof
  | invalidData
  deriving DecidableEq

instance {ε α : Type} [DecidableEq ε] [DecidableEq α] : DecidableEq (Except ε α) :=
  fun x y =>
    match x, y with
    | .ok a, .ok b =>
      if h : a = b then .isTrue (h ▸ rfl) else .isFalse fun hc => h (Except.ok.inj hc)
    | .error a, .error b =>
      if h : a = b then .isTrue (h ▸ rfl) else .isFalse fun hc => h (Except.error.inj hc)
    | .ok _, .error _ => .isFalse fun hc => Except.noConfusion hc
    | .error _, .ok _ => .isFalse fun hc => Except.noConfusion hc

/-! ### Reader primitives (src/offseted_reader.rs, src/btrfs/utils.rs)

A reader over the byte source `bytes` is just a position `pos`; a
`take`-bounded sub-reader is the absolute window end `w` (reads also stop at
the end of the source).  `read_exact` (used by all byteorder reads) consumes
`n` bytes on success; on a short source it consumes everything available in
the window and fails with `UnexpectedEof`, matching `Read::read_exact`'s
default implementation which reads until the buffer is full or EOF. -/

def readExact (bytes : List Nat) (w pos n : Nat) : Option (List Nat) × Nat :=
  if pos + n ≤ min w bytes.length then (some ((bytes.drop pos).take n), pos + n)
  else (none, max pos (min w bytes.length))

/-- Little-endian value of a byte list. -/
def leVal : List Nat → Nat
  | [] => 0
  | b :: rest => b + 256 * leVal rest

/-- `read_uN::<LittleEndian>` for `n` bytes. -/
def readUInt (bytes : List Nat) (w pos n : Nat) : Option Nat × Nat :=
  match readExact bytes w pos n with
  | (some l, p) => (some (leVal l), p)
  | (none, p) => (none, p)

/-- `read_bytes` (src/btrfs/utils.rs lines 147-151): `read_to_end` of the
bounded window, always succeeds. -/
def read_bytes (bytes : List Nat) (w pos : Nat) : List Nat × Nat :=
  ((bytes.drop pos).take (min w bytes.length - pos), max pos (min w bytes.length))

/-- `read_mixed` (src/btrfs/utils.rs lines 141-145). -/
def read_mixed (bytes : List Nat) (w pos : Nat) : MixedString × Nat :=
  let r := read_bytes bytes w pos
  (MixedString.from_bytes r.1, r.2)

/-- `read_timespec` (src/btrfs/utils.rs lines 124-139): little-endian u64
seconds, little-endian u32 nanoseconds, checked `i64::from_u64` conversion,
then `NaiveDateTime::from_timestamp_opt` validation. -/
def read_timespec (bytes : List Nat) (w pos : Nat) : Except PErr Timestamp × Nat :=
  match readUInt bytes w pos 8 with
  | (none, p) => (.error .unexpectedEof, p)
  | (some s, p1) =>
    match readUInt bytes w p1 4 with
    | (none, p2) => (.error .unexpectedEof, p2)
    | (some ns, p2) =>
      match i64_from_u64 s with
      | none => (.error .invalidData, p2)
      | some si =>
        match from_timestamp_opt si ns with
        | none => (.error .invalidData, p2)
        | some ts => (.ok ts, p2)

/-! ### TLV decoder (src/btrfs/tlv.rs) -/

structure TLV where
  UUID : Option Nat := none
  Size : Option Nat := none
  Mode : Option Nat := none
  Uid : Option Nat := none
  Gid : Option Nat := none
  Rdev : Option Nat := none
  Ctime : Option Timestamp := none
  Mtime : Option Timestamp := none
  Atime : Option Timestamp := none
  XattrName : Option MixedString := none
  XattrData : Option MixedString := none
  Path : Option MixedString := none
  PathTo : Option MixedString := none
  PathLink : Option MixedString := none
  ClonePath : Option MixedString := none
  deriving DecidableEq

def TLV.new : TLV := {}

/-- The fifteen type-ids recognized by `TLVs::new`. -/
def tlvIds : List Nat := [1, 4, 5, 6, 7, 8, 9, 10, 11, 13, 14, 15, 16, 17, 22]

def TLVs.recognized (id : Nat) : Bool := tlvIds.contains id

/-- One numeric slot assignment inside `TLV::add`. -/
def TLV.addU (bytes : List Nat) (w pos n : Nat) (set : Nat → TLV) :
    Except PErr TLV × Nat :=
  match readUInt bytes w pos n with
  | (none, p) => (.error .unexpectedEof, p)
  | (some v, p) => (.ok (set v), p)

/-- One timestamp slot assignment inside `TLV::add`. -/
def TLV.addTs (bytes : List Nat) (w pos : Nat) (set : Timestamp → TLV) :
    Except PErr TLV × Nat :=
  match read_timespec bytes w pos with
  | (.error e, p) => (.error e, p)
  | (.ok v, p) => (.ok (set v), p)

/-- One MixedString slot assignment inside `TLV::add`. -/
def TLV.addMx (bytes : List Nat) (w pos : Nat) (set : MixedString → TLV) :
    Except PErr TLV × Nat :=
  let r := read_mixed bytes w pos
  (.ok (set r.1), r.2)

/-- `TLV::add` (src/btrfs/tlv.rs lines 57-65, expanded from the `tlv!`
macro): reads the slot for a recognized id from the value sub-reader; an
unrecognized id falls through to `_ => {}` and reads NOTHING — the value
sub-reader is dropped without being consumed. -/
def TLV.add (bytes : List Nat) (w pos : Nat) (t : TLV) (id : Nat) :
    Except PErr TLV × Nat :=
  match id with
  | 1 => TLV.addU bytes w pos 16 (fun v => { t with UUID := some v })
  | 4 => TLV.addU bytes w pos 8 (fun v => { t with Size := some v })
  | 5 => TLV.addU bytes w pos 8 (fun v => { t with Mode := some v })
  | 6 => TLV.addU bytes w pos 8 (fun v => { t with Uid := some v })
  | 7 => TLV.addU bytes w pos 8 (fun v => { t with Gid := some v })
  | 8 => TLV.addU bytes w pos 8 (fun v => { t with Rdev := some v })
  | 9 => TLV.addTs bytes w pos (fun v => { t with Ctime := some v })
  | 10 => TLV.addTs bytes w pos (fun v => { t with Mtime := some v })
  | 11 => TLV.addTs bytes w pos (fun v => { t with Atime := some v })
  | 13 => TLV.addMx bytes w pos (fun v => { t with XattrName := some v })
  | 14 => TLV.addMx bytes w pos (fun v => { t with XattrData := some v })
  | 15 => TLV.addMx bytes w pos (fun v => { t with Path := some v })
  | 16 => TLV.addMx bytes w pos (fun v => { t with PathTo := some v })
  | 17 => TLV.addMx bytes w pos (fun v => { t with PathLink := some v })
  | 22 => TLV.addMx bytes w pos (fun v => { t with ClonePath := some v })
  | _ => (.ok t, pos)

/-- Fuelled loop of `Parser::read_tlvs` (src/btrfs/tlv.rs lines 161-239):
`w` is the absolute end of the command's `take(size)` window.  The type read
is wrapped in `try_read` (EOF here ends the loop cleanly); the length read
propagates EOF as an error; a failed `TLV::add` is logged and breaks the
loop, returning the bag accumulated so far.  Every iteration advances the
position by at least 4, so fuel `bytes.length + 1` (as supplied by
`read_tlvs`) never runs out; see `read_tlvs_go_fuel_succ`. -/
def read_tlvs_go (bytes : List Nat) (w : Nat) : Nat → Nat → TLV → Except PErr TLV × Nat
  | 0, pos, acc => (.ok acc, pos)
  | fuel + 1, pos, acc =>
    match readUInt bytes w pos 2 with
    | (none, p) => (.ok acc, p)
    | (some t, p1) =>
      match readUInt bytes w p1 2 with
      | (none, p2) => (.error .unexpectedEof, p2)
      | (some len, p2) =>
        match TLV.add bytes (min (p2 + len) w) p2 acc t with
        | (.ok acc', p3) => read_tlvs_go bytes w fuel p3 acc'
        | (.error _, p3) => (.ok acc, p3)

/-- `Parser::read_tlvs`. -/
def read_tlvs (bytes : List Nat) (w pos : Nat) : Except PErr TLV × Nat :=
  read_tlvs_go bytes w (bytes.length + 1) pos TLV.new

/-! ### Parser state (src/btrfs/parser.rs) -/

structure Settings where
  bypass_errors : Bool

structure Parser where
  current_subvol : Option SubvolumeInfo
  result : List SubvolumeInfo
  command_no : Nat
  default_dt : Timestamp
  settings : Settings

/-- The sentinel timestamp `NaiveDate::from_ymd(99999, 12, 31)` at
`NaiveTime::from_hms(23, 58, 59)` installed by `Parser::new`. -/
def sentinelDt : Timestamp := ⟨civilSecs 99999 12 31 23 58 59, 0⟩

/-- `Parser::new` (src/btrfs/parser.rs lines 36-47). -/
def Parser.new (settings : Settings) : Parser :=
  { current_subvol := none
    result := []
    command_no := 0
    default_dt := sentinelDt
    settings := settings }

/-! ### Subvolume state operations (src/btrfs/subvolume.rs) -/

/-- `SubvolumeInfo::add_file` (lines 12-33): inserts, overwriting any prior
entry; always `Ok`. -/
def SubvolumeInfo.add_file (sv : SubvolumeInfo) (path : MixedString)
    (filetype : FileType) (mode : Nat) : SubvolumeInfo :=
  { sv with
    files := sv.files.insert path (some
      { filename := path
        permissions := mode
        modified := ⟨0, 0⟩
        accessed := ⟨0, 0⟩
        created := ⟨0, 0⟩
        length := 0
        user_id := 0
        group_id := 0
        filetype := filetype }) }

/-- `SubvolumeInfo::load_file` (lines 83-91): returns early in overwrite
mode or when the key is present; the remaining branch is an unimplemented
`TODO` that does nothing, so the whole function is a no-op on the state. -/
def SubvolumeInfo.load_file (sv : SubvolumeInfo) (_path : MixedString) : SubvolumeInfo :=
  sv

/-- `SubvolumeInfo::del_file` (lines 35-60).  NOTE: this is the only place a
tombstone is written, and the command interpreter in src/btrfs/commands.rs
never calls it (the Unlink/Rmdir arm removes the key directly). -/
def SubvolumeInfo.del_file (sv : SubvolumeInfo) (path : MixedString) :
    Except PErr SubvolumeInfo :=
  match sv.files path with
  | none => .error .invalidData
  | some (some _) =>
    if sv.overwrite then .ok { sv with files := sv.files.erase path }
    else .ok { sv with files := sv.files.insert path none }
  | some none => .error .invalidData

/-- `SubvolumeInfo::get_file` (lines 62-70): `load_file` then look the slot
up, failing when the key is absent. -/
def SubvolumeInfo.get_file (sv : SubvolumeInfo) (path : MixedString) :
    Except PErr (Option FileInfo) :=
  match (sv.load_file path).files path with
  | none => .error .invalidData
  | some entry => .ok entry

/-- `SubvolumeInfo::pop_file` (lines 72-80): `load_file` then remove and
return the slot, failing when the key is absent. -/
def SubvolumeInfo.pop_file (sv : SubvolumeInfo) (path : MixedString) :
    Except PErr (Option FileInfo × SubvolumeInfo) :=
  let sv1 := sv.load_file path
  match sv1.files path with
  | none => .error .invalidData
  | some entry => .ok (entry, { sv1 with files := sv1.files.erase path })

/-- `SubvolumeInfo::copy_file` (lines 93-101): clone the source slot,
rewrite the clone's `filename` to the destination when it is `Some`, and
insert it under the destination; the source stays in place. -/
def SubvolumeInfo.copy_file (sv : SubvolumeInfo) (fromP toP : MixedString) :
    Except PErr SubvolumeInfo :=
  let sv1 := sv.load_file fromP
  match sv1.get_file fromP with
  | .error e => .error e
  | .ok entry =>
    let entry2 := match entry with
      | some info => some { info with filename := toP }
      | none => none
    .ok { sv1 with files := sv1.files.insert toP entry2 }

/-- `SubvolumeInfo::modify` (lines 103-124): applies the mutator to a
present, non-tombstoned entry in place; fails with `InvalidData` on a
tombstone or an absent key.  The `Debuggable` wrapper around the mutator
only carries a diagnostic string and is dropped. -/
def SubvolumeInfo.modify (sv : SubvolumeInfo) (path : MixedString)
    (f : FileInfo → FileInfo) : Except PErr SubvolumeInfo :=
  let sv1 := sv.load_file path
  match sv1.files path with
  | some (some info) => .ok { sv1 with files := sv1.files.insert path (some (f info)) }
  | some none => .error .invalidData
  | none => .error .invalidData

/-! ### Command interpreter (src/btrfs/commands.rs) -/

inductive Command where
  | Subvolume | Snapshot | MkFile | MkDir | MkNod | MkFIFO | MkSock | Symlink
  | Rename | Link | Unlink | Rmdir | SetXattr | RemoveXattr | Clone
  | Chmod | Chown | Utimes | End | Unknown
  deriving DecidableEq

/-- `Command::new` (the `cmd!` macro, src/btrfs/commands.rs lines 39-61). -/
def Command.new (id : Nat) : Command :=
  match id with
  | 1 => .Subvolume
  | 2 => .Snapshot
  | 3 => .MkFile
  | 4 => .MkDir
  | 5 => .MkNod
  | 6 => .MkFIFO
  | 7 => .MkSock
  | 8 => .Symlink
  | 9 => .Rename
  | 10 => .Link
  | 11 => .Unlink
  | 12 => .Rmdir
  | 13 => .SetXattr
  | 14 => .RemoveXattr
  | 16 => .Clone
  | 18 => .Chmod
  | 19 => .Chown
  | 20 => .Utimes
  | 21 => .End
  | _ => .Unknown

/-- `tlv_get_auto`'s default for a `u64` slot (`u64::max_value()`). -/
def u64Max : Nat := 2 ^ 64 - 1

/-- `tlv_get_auto`'s default for the `u128` UUID slot (`u128::max_value()`). -/
def u128Max : Nat := 2 ^ 128 - 1

/-- The `match cmd` body of `Parser::read_command` (src/btrfs/commands.rs
lines 87-214), acting on the parser state after `command_no` was bumped.
`tlv_get` failures are `InvalidData`; `tlv_get_auto`/`tlv_get_def` never
fail.  Match order follows the evaluation order of the Rust expressions
(for `Link`/`Clone` the receiver `self.subvol()?` is evaluated before the
argument `tlv_get` calls). -/
def applyCommand (st : Parser) (cmd : Command) (t : TLV) : Except PErr Parser :=
  match cmd with
  | .Unknown => .ok st
  | .Subvolume =>
    match st.current_subvol with
    | some _ => .error .invalidData
    | none =>
      let sv : SubvolumeInfo :=
        { source := .btrfs (t.UUID.getD u128Max), overwrite := true, files := Files.empty }
      .ok { st with current_subvol := some sv }
  | .Snapshot =>
    match st.current_subvol with
    | some _ => .error .invalidData
    | none =>
      let sv : SubvolumeInfo :=
        { source := .btrfs (t.UUID.getD u128Max), overwrite := false, files := Files.empty }
      .ok { st with current_subvol := some sv }
  | .MkFile | .MkDir =>
    match t.Path with
    | none => .error .invalidData
    | some path =>
      match st.current_subvol with
      | none => .error .invalidData
      | some sv => .ok { st with current_subvol := some (sv.add_file path .directory 0) }
  | .MkNod | .MkSock | .MkFIFO =>
    match t.Path with
    | none => .error .invalidData
    | some path =>
      let mode := t.Mode.getD u64Max
      match st.current_subvol with
      | none => .error .invalidData
      | some sv => .ok { st with current_subvol := some (sv.add_file path .directory mode) }
  | .Symlink =>
    match t.Path with
    | none => .error .invalidData
    | some path =>
      match t.PathLink with
      | none => .error .invalidData
      | some _ =>
        match st.current_subvol with
        | none => .error .invalidData
        | some sv => .ok { st with current_subvol := some (sv.add_file path .symlink 0) }
  | .Rename =>
    match t.Path with
    | none => .error .invalidData
    | some fromP =>
      match t.PathTo with
      | none => .error .invalidData
      | some toP =>
        match st.current_subvol with
        | none => .error .invalidData
        | some sv =>
          let sv1 := sv.load_file fromP
          match sv1.pop_file fromP with
          | .error e => .error e
          | .ok (entry, sv2) =>
            let sv3 := { sv2 with files := sv2.files.insert toP entry }
            .ok { st with current_subvol := some sv3 }
  | .Link =>
    match st.current_subvol with
    | none => .error .invalidData
    | some sv =>
      match t.Path with
      | none => .error .invalidData
      | some fromP =>
        match t.PathLink with
        | none => .error .invalidData
        | some toP =>
          match sv.copy_file fromP toP with
          | .error e => .error e
          | .ok sv' => .ok { st with current_subvol := some sv' }
  | .Unlink | .Rmdir =>
    match t.Path with
    | none => .error .invalidData
    | some path =>
      match st.current_subvol with
      | none => .error .invalidData
      | some sv =>
        let sv1 := sv.load_file path
        match sv1.files path with
        | none => .error .invalidData
        | some _ =>
          let sv2 := { sv1 with files := sv1.files.erase path }
          .ok { st with current_subvol := some sv2 }
  | .SetXattr | .RemoveXattr => .ok st
  | .Clone =>
    match st.current_subvol with
    | none => .error .invalidData
    | some sv =>
      match t.Path with
      | none => .error .invalidData
      | some fromP =>
        match t.ClonePath with
        | none => .error .invalidData
        | some toP =>
          match sv.copy_file fromP toP with
          | .error e => .error e
          | .ok sv' => .ok { st with current_subvol := some sv' }
  | .Chmod =>
    match t.Path with
    | none => .error .invalidData
    | some path =>
      let mode := t.Mode.getD u64Max
      match st.current_subvol with
      | none => .error .invalidData
      | some sv =>
        match sv.modify path (fun info => { info with permissions := mode }) with
        | .error e => .error e
        | .ok sv' => .ok { st with current_subvol := some sv' }
  | .Chown =>
    match t.Path with
    | none => .error .invalidData
    | some path =>
      let user := t.Uid.getD u64Max
      let group := t.Gid.getD u64Max
      match st.current_subvol with
      | none => .error .invalidData
      | some sv =>
        match sv.modify path (fun info => { info with user_id := user, group_id := group }) with
        | .error e => .error e
        | .ok sv' => .ok { st with current_subvol := some sv' }
  | .Utimes =>
    match t.Path with
    | none => .error .invalidData
    | some path =>
      let accessed := t.Atime.getD st.default_dt
      let created := t.Ctime.getD st.default_dt
      let modified := t.Mtime.getD st.default_dt
      match st.current_subvol with
      | none => .error .invalidData
      | some sv =>
        match sv.modify path (fun info =>
            { info with accessed := accessed, created := created, modified := modified }) with
        | .error e => .error e
        | .ok sv' => .ok { st with current_subvol := some sv' }
  | .End =>
    match st.current_subvol with
    | none => .error .invalidData
    | some sv => .ok { st with current_subvol := none, result := st.result ++ [sv] }

/-- `Parser::read_command` (src/btrfs/commands.rs lines 64-217).  Returns
the updated parser, the outer reader's new absolute position, and the
`Result<bool>` outcome.  The size read is wrapped in `try_read` (EOF there
means clean end of stream, `Ok(false)`); the opcode and checksum reads
propagate EOF.  The TLV body is decoded in the `take(size)` sub-reader,
whose window end is `position-after-checksum + size`; the outer position
afterwards is wherever the TLV loop stopped (dropping the sub-reader does
not consume its unread bytes).  `command_no` is bumped after a successful
TLV decode, before the opcode dispatch. -/
def read_command (bytes : List Nat) (pos : Nat) (st : Parser) :
    Parser × Nat × Except PErr Bool :=
  match readUInt bytes bytes.length pos 4 with
  | (none, p1) => (st, p1, .ok false)
  | (some size, p1) =>
    match readUInt bytes bytes.length p1 2 with
    | (none, p2) => (st, p2, .error .unexpectedEof)
    | (some cmd_id, p2) =>
      match readUInt bytes bytes.length p2 4 with
      | (none, p3) => (st, p3, .error .unexpectedEof)
      | (some _checksum, p3) =>
        match read_tlvs bytes (p3 + size) p3 with
        | (.error e, p4) => (st, p4, .error e)
        | (.ok tlv, p4) =>
          let st1 := { st with command_no := st.command_no + 1 }
          match applyCommand st1 (Command.new cmd_id) tlv with
          | .error e => (st1, p4, .error e)
          | .ok st2 => (st2, p4, .ok true)

/-! ### Stream driver (src/btrfs/parser.rs) -/

def CORRECT_MAGIC : List Nat :=
  [0x62, 0x74, 0x72, 0x66, 0x73, 0x2d, 0x73, 0x74, 0x72, 0x65, 0x61, 0x6d, 0x00]

/-- `Parser::read_header` (src/btrfs/parser.rs lines 76-100): 13 magic
bytes, then a little-endian u32 version that must be 1; returns the
position after the 17-byte header. -/
def read_header (bytes : List Nat) : Except PErr Nat :=
  match readExact bytes bytes.length 0 13 with
  | (none, _) => .error .unexpectedEof
  | (some magic, p1) =>
    if magic ≠ CORRECT_MAGIC then .error .invalidData
    else
      match readUInt bytes bytes.length p1 4 with
      | (none, _) => .error .unexpectedEof
      | (some version, p2) =>
        if version ≠ 1 then .error .invalidData else .ok p2

/-- Fuelled command loop of `Parser::parse` (src/btrfs/parser.rs lines
52-66): `Ok(false)` breaks, `Ok(true)` continues, and every `Err` is logged
and the loop continues.  Every continuing iteration advances the position
by at least 4 (the frame's size field was read), so fuel `bytes.length + 1`
(as supplied by `parse`) never runs out; see `parse_go_fuel_succ`. -/
def parse_go (bytes : List Nat) : Nat → Parser → Nat → List SubvolumeInfo
  | 0, st, _ => st.result
  | fuel + 1, st, pos =>
    match read_command bytes pos st with
    | (st', _, .ok false) => st'.result
    | (st', pos', .ok true) => parse_go bytes fuel st' pos'
    | (st', pos', .error _) => parse_go bytes fuel st' pos'

/-- `Parser::parse` (src/btrfs/parser.rs lines 49-68): header errors abort
with zero results; afterwards the command loop always completes and the
accumulated results are returned as `Ok`. -/
def parse (bytes : List Nat) (settings : Settings) : Except PErr (List SubvolumeInfo) :=
  match read_header bytes with
  | .error e => .error e
  | .ok pos => .ok (parse_go bytes (bytes.length + 1) (Parser.new settings) pos)

/-! ### Claim-modelled comparison definition for C6 -/

/-- Two's-complement reinterpretation of a u64 as an i64, as the spec's
wording for `read_timespec` describes the seconds conversion. -/
def toSigned64 (s : Nat) : Int :=
  if s < 2 ^ 63 then (s : Int) else (s : Int) - 2 ^ 64

/-- Follows the words of claim C6 (NOT the source): read little-endian u64
seconds and u32 nanoseconds, reinterpret the seconds as a signed 64-bit
value by two's complement, and fail with `InvalidData` exactly when the
pair is not a valid calendar timestamp for the timestamp type. -/
def read_timespec_claim (bytes : List Nat) (w pos : Nat) : Except PErr Timestamp × Nat :=
  match readUInt bytes w pos 8 with
  | (none, p) => (.error .unexpectedEof, p)
  | (some s, p1) =>
    match readUInt bytes w p1 4 with
    | (none, p2) => (.error .unexpectedEof, p2)
    | (some ns, p2) =>
      match from_timestamp_opt (toSigned64 s) ns with
      | none => (.error .invalidData, p2)
      | some ts => (.ok ts, p2)

/-! ### Concrete inputs used by counterexamples and witnesses -/

/-- The path "p" (a single byte 0x70) as decoded by `read_mixed`. -/
def pPath : MixedString := MixedString.from_bytes [0x70]

/-- A stream for C1: valid header, then Snapshot (non-overwrite mode, no
UUID TLV — `tlv_get_auto` supplies the default), MkDir "p", Unlink "p",
End. -/
def c1bytes : List Nat :=
  CORRECT_MAGIC ++ [1, 0, 0, 0]
    ++ [0, 0, 0, 0, 2, 0, 0, 0, 0, 0]
    ++ [5, 0, 0, 0, 4, 0, 0, 0, 0, 0, 15, 0, 1, 0, 0x70]
    ++ [5, 0, 0, 0, 11, 0, 0, 0, 0, 0, 15, 0, 1, 0, 0x70]
    ++ [0, 0, 0, 0, 21, 0, 0, 0, 0, 0]

/-- A frame for C3: size 16, opcode 0 (Unknown), checksum 0, then a body
whose first TLV claims a Mode (id 5) of length 2 — `read_u64` fails inside
the 2-byte value window, the TLV loop breaks at offset 16, and the ten
remaining body bytes are never consumed. -/
def c3bytes : List Nat :=
  [16, 0, 0, 0, 0, 0, 0, 0, 0, 0, 5, 0, 2, 0, 0xAA, 0xBB, 0, 0, 0, 0, 0, 0, 0, 0, 0, 0]

/-- A TLV window for C4: an unknown-id record (id 2, length 12) whose
payload spells a Mode record (id 5, length 8, value 1). -/
def c4bytes : List Nat :=
  [2, 0, 12, 0, 5, 0, 8, 0, 1, 0, 0, 0, 0, 0, 0, 0]

/-- A 12-byte timespec for C6: seconds `u64::MAX` (two's complement `-1`),
nanoseconds 0. -/
def c6bytes : List Nat :=
  [255, 255, 255, 255, 255, 255, 255, 255, 0, 0, 0, 0]

/-- A 12-byte timespec of all zeroes (the Unix epoch). -/
def c6zeros : List Nat :=
  [0, 0, 0, 0, 0, 0, 0, 0, 0, 0, 0, 0]

/-- The path "q" (a single byte 0x71) as decoded by `read_mixed`. -/
def qPath : MixedString := MixedString.from_bytes [0x71]

/-- A file entry at `pPath`, as `add_file` would create a directory there. -/
def fileA : FileInfo :=
  { filename := pPath
    permissions := 0
    modified := ⟨0, 0⟩
    accessed := ⟨0, 0⟩
    created := ⟨0, 0⟩
    length := 0
    user_id := 0
    group_id := 0
    filetype := .directory }

/-- A non-overwrite (Snapshot) subvolume holding just `pPath ↦ fileA`. -/
def svA : SubvolumeInfo :=
  { source := .btrfs 0
    overwrite := false
    files := Files.empty.insert pPath (some fileA) }

/-- A parser state in the middle of replaying `svA`. -/
def stA : Parser :=
  { Parser.new ⟨false⟩ with current_subvol := some svA }

/-- A TLV bag carrying only `Path = "p"` (as an Unlink/Rmdir frame would). -/
def tUnlink : TLV := { TLV.new with Path := some pPath }

/-- A TLV bag for a Utimes frame with only Atime present; Ctime and Mtime
are omitted. -/
def tUtimes : TLV := { TLV.new with Path := some pPath, Atime := some ⟨5, 6⟩ }

/-- A TLV bag for a Rename frame moving "p" to "q". -/
def tRename : TLV := { TLV.new with Path := some pPath, PathTo := some qPath }

/-- The checked-conversion reading of a fully-present 12-byte timespec at
`pos`: seconds accepted only when they fit in an `i64` (no two's-complement
wrapping) and the pair passes chrono's calendar validation. -/
def timespecChecked (bytes : List Nat) (pos : Nat) : Except PErr Timestamp :=
  if leVal ((bytes.drop pos).take 8) < 2 ^ 63 ∧
      leVal ((bytes.drop (pos + 8)).take 4) < 2000000000 ∧
      chronoMinSecs ≤ (leVal ((bytes.drop pos).take 8) : Int) ∧
      (leVal ((bytes.drop pos).take 8) : Int) ≤ chronoMaxSecs
  then .ok ⟨(leVal ((bytes.drop pos).take 8) : Int), leVal ((bytes.drop (pos + 8)).take 4)⟩
  else .error .invalidData

/-! ## Theorems -/

/-! ### MixedString round trip (C2) and segmentation shape (C8) -/

theorem segBytes_append (l1 l2 : List Mixed) :
    segBytes (l1 ++ l2) = segBytes l1 ++ segBytes l2 := by
  simp [segBytes]

theorem segBytes_pre (valid : List Nat) :
    segBytes (if valid = [] then [] else [Mixed.mstr valid]) = valid := by
  split
  · simp_all [segBytes]
  · simp [segBytes, Mixed.toBytes]

theorem classifyChar_bad_pos {w : Nat} {rest : List Nat} {k : Nat}
    (h : classifyChar w rest = .bad k) : 1 ≤ k := by
  unfold classifyChar at h
  repeat' split at h
  all_goals simp_all
  all_goals omega

theorem utf8ValidateGo_some_pos :
    ∀ (fuel : Nat) (l : List Nat) (acc v k : Nat),
      utf8ValidateGo fuel l acc = some (v, some k) → 1 ≤ k := by
  intro fuel
  induction fuel with
  | zero => intro l acc v k h; simp [utf8ValidateGo] at h
  | succ n ih =>
    intro l acc v k h
    cases l with
    | nil => simp [utf8ValidateGo] at h
    | cons w rest =>
      rw [utf8ValidateGo] at h
      cases hc : classifyChar w rest with
      | ok m => rw [hc] at h; exact ih _ _ _ _ h
      | bad m =>
        rw [hc] at h
        simp only [Option.some.injEq, Prod.mk.injEq] at h
        obtain ⟨-, h2⟩ := h
        exact h2 ▸ classifyChar_bad_pos hc
      | incomplete => rw [hc] at h; simp at h

theorem utf8Validate_some_pos {l : List Nat} {v k : Nat}
    (h : utf8Validate l = some (v, some k)) : 1 ≤ k :=
  utf8ValidateGo_some_pos _ _ _ _ _ h

theorem utf8Validate_nil : utf8Validate [] = none := rfl

theorem fromBytesGo_succ_none {input : List Nat} (fuel : Nat)
    (h : utf8Validate input = none) :
    fromBytesGo (fuel + 1) input = [Mixed.mstr input] := by
  rw [fromBytesGo, h]

theorem fromBytesGo_succ_some_some {input : List Nat} {v l : Nat} (fuel : Nat)
    (h : utf8Validate input = some (v, some l)) :
    fromBytesGo (fuel + 1) input =
      (if input.take v = [] then [] else [Mixed.mstr (input.take v)])
        ++ [Mixed.mbyte ((input.drop v).take l)]
        ++ fromBytesGo fuel ((input.drop v).drop l) := by
  rw [fromBytesGo, h]

theorem fromBytesGo_succ_some_none {input : List Nat} {v : Nat} (fuel : Nat)
    (h : utf8Validate input = some (v, none)) :
    fromBytesGo (fuel + 1) input =
      (if input.take v = [] then [] else [Mixed.mstr (input.take v)])
        ++ [Mixed.mbyte (input.drop v), Mixed.unexpectedEOF] := by
  rw [fromBytesGo, h]

theorem noTwoStr_cons_cons (a b : Mixed) (l : List Mixed) :
    noTwoStr (a :: b :: l) = (!(a.isStr && b.isStr) && noTwoStr (b :: l)) := rfl

theorem segBytes_fromBytesGo :
    ∀ (fuel : Nat) (input : List Nat), input.length < fuel →
      segBytes (fromBytesGo fuel input) = input := by
  intro fuel
  induction fuel with
  | zero => intro input h; omega
  | succ n ih =>
    intro input hlen
    cases hv : utf8Validate input with
    | none => rw [fromBytesGo_succ_none n hv]; simp [segBytes, Mixed.toBytes]
    | some p =>
      obtain ⟨v, errLen⟩ := p
      have hne : input ≠ [] := by
        intro he
        rw [he, utf8Validate_nil] at hv
        exact Option.noConfusion hv
      cases errLen with
      | some invalidSequenceLength =>
        have hL : 1 ≤ invalidSequenceLength := utf8Validate_some_pos hv
        rw [fromBytesGo_succ_some_some n hv]
        rw [segBytes_append, segBytes_append, segBytes_pre]
        have hrec : segBytes (fromBytesGo n ((input.drop v).drop invalidSequenceLength))
            = (input.drop v).drop invalidSequenceLength := by
          apply ih
          have h0 : 0 < input.length := List.length_pos.mpr hne
          simp only [List.length_drop]
          omega
        rw [hrec]
        have h1 : segBytes [Mixed.mbyte ((input.drop v).take invalidSequenceLength)]
            = (input.drop v).take invalidSequenceLength := by
          simp [segBytes, Mixed.toBytes]
        rw [h1, List.append_assoc, List.take_append_drop, List.take_append_drop]
      | none =>
        rw [fromBytesGo_succ_some_none n hv]
        rw [segBytes_append, segBytes_pre]
        have h1 : segBytes [Mixed.mbyte (input.drop v), Mixed.unexpectedEOF]
            = input.drop v := by
          simp [segBytes, Mixed.toBytes]
        rw [h1, List.take_append_drop]

/-- C2: for every byte slice `b` — including invalid UTF-8, truncated
multibyte leads, and the empty slice — `to_bytes (from_bytes b) = b`. -/
theorem C2_from_bytes_to_bytes (b : List Nat) :
    (MixedString.from_bytes b).to_bytes = b :=
  segBytes_fromBytesGo (b.length + 1) b (Nat.lt_succ_self _)

theorem noTwoStr_cons {a : Mixed} {l : List Mixed} (ha : a.isStr = false)
    (hl : noTwoStr l = true) : noTwoStr (a :: l) = true := by
  cases l with
  | nil => rfl
  | cons b rest => simp_all [noTwoStr]

theorem noTwoStr_fromBytesGo :
    ∀ (fuel : Nat) (input : List Nat), noTwoStr (fromBytesGo fuel input) = true := by
  intro fuel
  induction fuel with
  | zero => intro input; rfl
  | succ n ih =>
    intro input
    cases hv : utf8Validate input with
    | none => rw [fromBytesGo_succ_none n hv]; rfl
    | some p =>
      obtain ⟨v, errLen⟩ := p
      cases errLen with
      | some invalidSequenceLength =>
        rw [fromBytesGo_succ_some_some n hv]
        split
        · simp only [List.nil_append, List.singleton_append]
          exact noTwoStr_cons rfl (ih _)
        · simp only [List.singleton_append, List.cons_append, List.nil_append,
            List.append_assoc]
          rw [noTwoStr_cons_cons]
          simp only [Mixed.isStr, Bool.and_false, Bool.not_false, Bool.true_and]
          exact noTwoStr_cons rfl (ih _)
      | none =>
        rw [fromBytesGo_succ_some_none n hv]
        split
        · rfl
        · rfl

/-- C8 amended: the decoder does not in general emit the coarsest possible
segmentation, but no two adjacent segments are ever both UTF-8 string
segments.  (Adjacent raw-byte segments do occur: each maximal ill-formed
subsequence is pushed as its own `Mixed::Byte` segment — see the
counterexample.) -/
theorem C8_no_adjacent_string_segments (b : List Nat) :
    noTwoStr (MixedString.from_bytes b).data = true :=
  noTwoStr_fromBytesGo (b.length + 1) b

/-- C8 counterexample: on input `[0x80, 0x80]` (two consecutive invalid
bytes) `from_bytes` emits TWO adjacent raw-byte segments followed by an
empty UTF-8 segment, so the claimed 'coarsest segmentation' invariant is
false: the two raw segments (and arguably the trailing empty string
segment) could be merged. -/
theorem C8_counterexample :
    coarsest (MixedString.from_bytes [0x80, 0x80]).data = false ∧
      (MixedString.from_bytes [0x80, 0x80]).data =
        [Mixed.mbyte [0x80], Mixed.mbyte [0x80], Mixed.mstr []] := by
  decide

/-! ### Reader position lemmas -/

theorem readExact_snd_ge (bytes : List Nat) (w pos n : Nat) :
    pos ≤ (readExact bytes w pos n).2 := by
  unfold readExact
  split <;> simp

theorem readExact_snd_le (bytes : List Nat) (w pos n : Nat) :
    (readExact bytes w pos n).2 ≤ max pos (min w bytes.length) := by
  unfold readExact
  split
  · rename_i h
    simp only []
    omega
  · simp

theorem readUInt_snd (bytes : List Nat) (w pos n : Nat) :
    (readUInt bytes w pos n).2 = (readExact bytes w pos n).2 := by
  unfold readUInt
  rcases readExact bytes w pos n with ⟨o, p⟩
  cases o <;> rfl

theorem readUInt_snd_ge (bytes : List Nat) (w pos n : Nat) :
    pos ≤ (readUInt bytes w pos n).2 := by
  rw [readUInt_snd]; exact readExact_snd_ge bytes w pos n

theorem readUInt_snd_le (bytes : List Nat) (w pos n : Nat) :
    (readUInt bytes w pos n).2 ≤ max pos (min w bytes.length) := by
  rw [readUInt_snd]; exact readExact_snd_le bytes w pos n

theorem readUInt_success (bytes : List Nat) (w pos n : Nat)
    (h : pos + n ≤ min w bytes.length) :
    readUInt bytes w pos n = (some (leVal ((bytes.drop pos).take n)), pos + n) := by
  unfold readUInt readExact
  rw [if_pos h]

theorem readUInt_fail (bytes : List Nat) (w pos n : Nat)
    (h : ¬ pos + n ≤ min w bytes.length) :
    readUInt bytes w pos n = (none, max pos (min w bytes.length)) := by
  unfold readUInt readExact
  rw [if_neg h]

theorem readUInt_some {bytes : List Nat} {w pos n v p : Nat}
    (h : readUInt bytes w pos n = (some v, p)) :
    p = pos + n ∧ pos + n ≤ min w bytes.length := by
  by_cases hc : pos + n ≤ min w bytes.length
  · rw [readUInt_success bytes w pos n hc] at h
    exact ⟨(Prod.mk.injEq _ _ _ _ ▸ h).2.symm, hc⟩
  · rw [readUInt_fail bytes w pos n hc] at h
    exact absurd (congrArg Prod.fst h) (by simp)

theorem readUInt_none {bytes : List Nat} {w pos n p : Nat}
    (h : readUInt bytes w pos n = (none, p)) :
    p = max pos (min w bytes.length) ∧ ¬ pos + n ≤ min w bytes.length := by
  by_cases hc : pos + n ≤ min w bytes.length
  · rw [readUInt_success bytes w pos n hc] at h
    exact absurd (congrArg Prod.fst h) (by simp)
  · rw [readUInt_fail bytes w pos n hc] at h
    exact ⟨(Prod.mk.injEq _ _ _ _ ▸ h).2.symm, hc⟩

theorem read_bytes_snd (bytes : List Nat) (w pos : Nat) :
    (read_bytes bytes w pos).2 = max pos (min w bytes.length) := rfl

theorem read_timespec_snd (bytes : List Nat) (w pos : Nat) :
    pos ≤ (read_timespec bytes w pos).2 ∧
      (read_timespec bytes w pos).2 ≤ max pos (min w bytes.length) := by
  unfold read_timespec
  by_cases h8 : pos + 8 ≤ min w bytes.length
  · rw [readUInt_success bytes w pos 8 h8]
    simp only []
    by_cases h4 : pos + 8 + 4 ≤ min w bytes.length
    · rw [readUInt_success bytes w (pos + 8) 4 h4]
      simp only []
      cases i64_from_u64 (leVal ((bytes.drop pos).take 8)) with
      | none => simp only []; omega
      | some si =>
        simp only []
        cases from_timestamp_opt si (leVal ((bytes.drop (pos + 8)).take 4)) with
        | none => simp only []; omega
        | some ts => simp only []; omega
    · rw [readUInt_fail bytes w (pos + 8) 4 h4]
      simp only []
      omega
  · rw [readUInt_fail bytes w pos 8 h8]
    simp only []
    omega

theorem TLV.addU_snd (bytes : List Nat) (w pos n : Nat) (set : Nat → TLV) :
    pos ≤ (TLV.addU bytes w pos n set).2 ∧
      (TLV.addU bytes w pos n set).2 ≤ max pos (min w bytes.length) := by
  unfold TLV.addU
  rcases h : readUInt bytes w pos n with ⟨o, p⟩
  have g := readUInt_snd_ge bytes w pos n
  have l := readUInt_snd_le bytes w pos n
  rw [h] at g l
  cases o <;> exact ⟨g, l⟩

theorem TLV.addTs_snd (bytes : List Nat) (w pos : Nat) (set : Timestamp → TLV) :
    pos ≤ (TLV.addTs bytes w pos set).2 ∧
      (TLV.addTs bytes w pos set).2 ≤ max pos (min w bytes.length) := by
  unfold TLV.addTs
  rcases h : read_timespec bytes w pos with ⟨o, p⟩
  have gl := read_timespec_snd bytes w pos
  rw [h] at gl
  cases o <;> exact gl

theorem TLV.addMx_snd (bytes : List Nat) (w pos : Nat) (set : MixedString → TLV) :
    pos ≤ (TLV.addMx bytes w pos set).2 ∧
      (TLV.addMx bytes w pos set).2 ≤ max pos (min w bytes.length) := by
  unfold TLV.addMx read_mixed
  constructor
  · exact le_max_left _ _
  · exact le_refl _

theorem TLV.add_snd (bytes : List Nat) (w pos : Nat) (t : TLV) (id : Nat) :
    pos ≤ (TLV.add bytes w pos t id).2 ∧
      (TLV.add bytes w pos t id).2 ≤ max pos (min w bytes.length) := by
  unfold TLV.add
  split
  any_goals exact TLV.addU_snd bytes w pos _ _
  any_goals exact TLV.addTs_snd bytes w pos _
  any_goals exact TLV.addMx_snd bytes w pos _
  exact ⟨le_refl _, le_max_left _ _⟩

/-- For an unrecognized type-id, `TLV::add` consumes no input at all and
leaves the bag untouched. -/
theorem TLV.add_unknown (bytes : List Nat) (w pos : Nat) (t : TLV) (id : Nat)
    (h : TLVs.recognized id = false) :
    TLV.add bytes w pos t id = (.ok t, pos) := by
  unfold TLV.add
  split <;> simp_all [TLVs.recognized, tlvIds]

/-! ### TLV loop lemmas (C4) -/

theorem read_tlvs_go_snd (bytes : List Nat) (w : Nat) :
    ∀ (fuel pos : Nat) (acc : TLV),
      pos ≤ (read_tlvs_go bytes w fuel pos acc).2 ∧
        (read_tlvs_go bytes w fuel pos acc).2 ≤ max pos (min w bytes.length) := by
  intro fuel
  induction fuel with
  | zero => intro pos acc; exact ⟨le_refl _, le_max_left _ _⟩
  | succ n ih =>
    intro pos acc
    rw [read_tlvs_go]
    by_cases h2 : pos + 2 ≤ min w bytes.length
    · rw [readUInt_success bytes w pos 2 h2]
      simp only []
      by_cases h4 : pos + 2 + 2 ≤ min w bytes.length
      · rw [readUInt_success bytes w (pos + 2) 2 h4]
        simp only []
        rcases hadd : TLV.add bytes
            (min (pos + 2 + 2 + leVal ((bytes.drop (pos + 2)).take 2)) w)
            (pos + 2 + 2) acc (leVal ((bytes.drop pos).take 2)) with ⟨o, p3⟩
        have hb := TLV.add_snd bytes
          (min (pos + 2 + 2 + leVal ((bytes.drop (pos + 2)).take 2)) w)
          (pos + 2 + 2) acc (leVal ((bytes.drop pos).take 2))
        rw [hadd] at hb
        cases o with
        | ok acc' =>
          simp only []
          have hr := ih p3 acc'
          obtain ⟨hr1, hr2⟩ := hr
          obtain ⟨hb1, hb2⟩ := hb
          constructor <;> omega
        | error e =>
          simp only []
          obtain ⟨hb1, hb2⟩ := hb
          constructor <;> omega
      · rw [readUInt_fail bytes w (pos + 2) 2 h4]
        simp only []
        constructor <;> omega
    · rw [readUInt_fail bytes w pos 2 h2]
      simp only []
      constructor <;> omega

/-- One fuel tick is irrelevant once the fuel dominates the remaining
window (each iteration consumes at least 4 bytes of it). -/
theorem read_tlvs_go_fuel_succ (bytes : List Nat) (w : Nat) :
    ∀ (fuel pos : Nat) (acc : TLV), min w bytes.length < pos + 4 * fuel →
      read_tlvs_go bytes w fuel pos acc = read_tlvs_go bytes w (fuel + 1) pos acc := by
  intro fuel
  induction fuel with
  | zero =>
    intro pos acc h
    rw [read_tlvs_go, read_tlvs_go]
    rw [readUInt_fail bytes w pos 2 (by omega)]
    simp only []
    congr 1
    omega
  | succ n ih =>
    intro pos acc h
    rw [read_tlvs_go]
    conv_rhs => rw [read_tlvs_go]
    by_cases h2 : pos + 2 ≤ min w bytes.length
    · rw [readUInt_success bytes w pos 2 h2]
      simp only []
      by_cases h4 : pos + 2 + 2 ≤ min w bytes.length
      · rw [readUInt_success bytes w (pos + 2) 2 h4]
        simp only []
        rcases hadd : TLV.add bytes
            (min (pos + 2 + 2 + leVal ((bytes.drop (pos + 2)).take 2)) w)
            (pos + 2 + 2) acc (leVal ((bytes.drop pos).take 2)) with ⟨o, p3⟩
        have hb := TLV.add_snd bytes
          (min (pos + 2 + 2 + leVal ((bytes.drop (pos + 2)).take 2)) w)
          (pos + 2 + 2) acc (leVal ((bytes.drop pos).take 2))
        rw [hadd] at hb
        cases o with
        | ok acc' =>
          simp only []
          exact ih p3 acc' (by omega)
        | error e => rfl
      · rw [readUInt_fail bytes w (pos + 2) 2 h4]
    · rw [readUInt_fail bytes w pos 2 h2]

/-- Fuel irrelevance for the TLV loop: any surplus over the dominating
bound gives the same result, so the `bytes.length + 1` supplied by
`read_tlvs` never changes the outcome. -/
theorem read_tlvs_go_fuel_ge (bytes : List Nat) (w : Nat) (k : Nat) :
    ∀ (fuel pos : Nat) (acc : TLV), min w bytes.length < pos + 4 * fuel →
      read_tlvs_go bytes w fuel pos acc = read_tlvs_go bytes w (fuel + k) pos acc := by
  induction k with
  | zero => intro fuel pos acc _; rfl
  | succ m ih =>
    intro fuel pos acc h
    rw [ih fuel pos acc h]
    have hs := read_tlvs_go_fuel_succ bytes w (fuel + m) pos acc (by omega)
    rw [hs]
    rfl

/-- C4 amended: on an unrecognized type-id the decoder consumes exactly the
4-byte record header (type and length) and NOTHING of the payload — the
`take(length)` value sub-reader is dropped unread — so decoding continues
at the first payload byte, and those payload bytes are re-parsed as further
TLV records.  The bag `acc` is unchanged by the unknown record's header
itself. -/
theorem C4_unknown_id_consumes_header_only (bytes : List Nat) (w fuel pos : Nat)
    (acc : TLV) (h4 : pos + 4 ≤ min w bytes.length)
    (hid : TLVs.recognized (leVal ((bytes.drop pos).take 2)) = false) :
    read_tlvs_go bytes w (fuel + 1) pos acc = read_tlvs_go bytes w fuel (pos + 4) acc := by
  rw [read_tlvs_go]
  rw [readUInt_success bytes w pos 2 (by omega)]
  simp only []
  rw [readUInt_success bytes w (pos + 2) 2 (by omega)]
  simp only []
  rw [TLV.add_unknown _ _ _ _ _ hid]

/-- Witness for `C4_unknown_id_consumes_header_only`: a 4-byte window
holding the header of an unknown record (id 2, length 4) with no payload
present; the step equation holds there. -/
theorem C4_unknown_id_consumes_header_only_witness :
    read_tlvs_go [2, 0, 4, 0] 100 8 0 TLV.new = read_tlvs_go [2, 0, 4, 0] 100 7 4 TLV.new :=
  C4_unknown_id_consumes_header_only [2, 0, 4, 0] 100 7 0 TLV.new (by decide) (by decide)

/-- C4 counterexample: the claim says an unknown type-id is skipped by
consuming exactly `length` payload bytes, leaving the TLV bag unaffected.
On `c4bytes` — an unknown record (id 2, length 12) whose 12-byte payload
spells a Mode record — the claim predicts an empty bag (`Mode = none`,
the window being exhausted after the skip), but the decoder re-parses the
payload and ends with `Mode = some 1`. -/
theorem C4_counterexample :
    ((read_tlvs c4bytes 16 0).1.toOption.map TLV.Mode) = some (some 1) ∧
      (read_tlvs c4bytes 16 0).2 = 16 := by
  decide

/-! ### Command frame lemmas (C3) -/

theorem read_tlvs_snd (bytes : List Nat) (w pos : Nat) :
    pos ≤ (read_tlvs bytes w pos).2 ∧
      (read_tlvs bytes w pos).2 ≤ max pos (min w bytes.length) :=
  read_tlvs_go_snd bytes w (bytes.length + 1) pos TLV.new

/-- When fewer than the 4 size bytes remain, `read_command` stops cleanly
(`try_read` turns the EOF into `Ok(false)`), consuming whatever was left. -/
theorem read_command_stop (bytes : List Nat) (pos : Nat) (st : Parser)
    (h : ¬ pos + 4 ≤ bytes.length) :
    read_command bytes pos st =
      (st, max pos (min bytes.length bytes.length), .ok false) := by
  unfold read_command
  rw [readUInt_fail bytes bytes.length pos 4 (by omega)]

/-- Any non-stop outcome of `read_command` consumed the 4-byte size field
and never moved the position backwards or beyond the source. -/
theorem read_command_snd (bytes : List Nat) (pos : Nat) (st : Parser)
    (hne : (read_command bytes pos st).2.2 ≠ .ok false) :
    pos + 4 ≤ bytes.length ∧ pos + 4 ≤ (read_command bytes pos st).2.1 ∧
      (read_command bytes pos st).2.1 ≤ bytes.length := by
  by_cases h1 : pos + 4 ≤ bytes.length
  case neg =>
    rw [read_command_stop bytes pos st h1] at hne
    exact absurd rfl hne
  refine ⟨h1, ?_⟩
  unfold read_command
  rw [readUInt_success bytes bytes.length pos 4 (by omega)]
  simp only []
  by_cases h2 : pos + 4 + 2 ≤ min bytes.length bytes.length
  · rw [readUInt_success bytes bytes.length (pos + 4) 2 h2]
    simp only []
    by_cases h3 : pos + 4 + 2 + 4 ≤ min bytes.length bytes.length
    · rw [readUInt_success bytes bytes.length (pos + 4 + 2) 4 h3]
      simp only []
      rcases ht : read_tlvs bytes
          (pos + 4 + 2 + 4 + leVal ((bytes.drop pos).take 4)) (pos + 4 + 2 + 4)
        with ⟨o, p4⟩
      have hb := read_tlvs_snd bytes
        (pos + 4 + 2 + 4 + leVal ((bytes.drop pos).take 4)) (pos + 4 + 2 + 4)
      rw [ht] at hb
      obtain ⟨hb1, hb2⟩ := hb
      cases o with
      | error e => simp only []; constructor <;> omega
      | ok tlv =>
        simp only []
        rcases applyCommand { st with command_no := st.command_no + 1 }
            (Command.new (leVal ((bytes.drop (pos + 4)).take 2))) tlv with _ | _
        · simp only []; constructor <;> omega
        · simp only []; constructor <;> omega
    · rw [readUInt_fail bytes bytes.length (pos + 4 + 2) 4 h3]
      simp only []
      constructor <;> omega
  · rw [readUInt_fail bytes bytes.length (pos + 4) 2 h2]
    simp only []
    constructor <;> omega

/-- C3 amended: the outer reader never advances BEYOND the frame's
`size`-byte body window — after `read_command` the position lies between
the start of the body and `min (body_start + size) (source length)` — but
it stays wherever TLV decoding stopped: bytes of the window left unread on
early TLV termination are NOT discarded (see the counterexample), so a
frame whose TLV decode stops early makes the next frame's size field be
read from inside the current frame's body. -/
theorem C3_window_confinement (bytes : List Nat) (pos : Nat) (st : Parser)
    (h : pos + 10 ≤ bytes.length) :
    pos + 10 ≤ (read_command bytes pos st).2.1 ∧
      (read_command bytes pos st).2.1 ≤
        min (pos + 10 + leVal ((bytes.drop pos).take 4)) bytes.length := by
  unfold read_command
  rw [readUInt_success bytes bytes.length pos 4 (by omega)]
  simp only []
  rw [readUInt_success bytes bytes.length (pos + 4) 2 (by omega)]
  simp only []
  rw [readUInt_success bytes bytes.length (pos + 4 + 2) 4 (by omega)]
  simp only []
  rcases ht : read_tlvs bytes
      (pos + 4 + 2 + 4 + leVal ((bytes.drop pos).take 4)) (pos + 4 + 2 + 4)
    with ⟨o, p4⟩
  have hb := read_tlvs_snd bytes
    (pos + 4 + 2 + 4 + leVal ((bytes.drop pos).take 4)) (pos + 4 + 2 + 4)
  rw [ht] at hb
  obtain ⟨hb1, hb2⟩ := hb
  cases o with
  | error e => simp only []; constructor <;> omega
  | ok tlv =>
    simp only []
    rcases applyCommand { st with command_no := st.command_no + 1 }
        (Command.new (leVal ((bytes.drop (pos + 4)).take 2))) tlv with _ | _
    · simp only []; constructor <;> omega
    · simp only []; constructor <;> omega

/-- Witness for `C3_window_confinement` at the concrete frame `c3bytes`. -/
theorem C3_window_confinement_witness :
    0 + 10 ≤ (read_command c3bytes 0 (Parser.new ⟨false⟩)).2.1 ∧
      (read_command c3bytes 0 (Parser.new ⟨false⟩)).2.1 ≤
        min (0 + 10 + leVal ((c3bytes.drop 0).take 4)) c3bytes.length :=
  C3_window_confinement c3bytes 0 (Parser.new ⟨false⟩) (by decide)

/-- C3 counterexample: in `c3bytes` the frame's body window is bytes
10..26 (size 16), but the first TLV's value read fails and the loop breaks
at offset 16, so `read_command` leaves the outer reader at 16 — inside the
body, NOT at the window end 26 as the claim requires — while still
returning `Ok(true)`; the next frame's size field would be read at 16. -/
theorem C3_counterexample :
    (read_command c3bytes 0 (Parser.new ⟨false⟩)).2.1 = 16 ∧
      (read_command c3bytes 0 (Parser.new ⟨false⟩)).2.1 ≠ 26 ∧
      (read_command c3bytes 0 (Parser.new ⟨false⟩)).2.2 = .ok true := by
  refine ⟨?_, ?_, ?_⟩ <;> decide

/-! ### Stream driver lemmas (C5, C9) -/

/-- One fuel tick is irrelevant for the command loop once the fuel
dominates the remaining bytes (every continuing iteration consumes the
4-byte size field, see `read_command_snd`). -/
theorem parse_go_fuel_succ (bytes : List Nat) :
    ∀ (fuel : Nat) (st : Parser) (pos : Nat), bytes.length < pos + 4 * fuel →
      parse_go bytes fuel st pos = parse_go bytes (fuel + 1) st pos := by
  intro fuel
  induction fuel with
  | zero =>
    intro st pos h
    rw [parse_go, parse_go, read_command_stop bytes pos st (by omega)]
  | succ n ih =>
    intro st pos h
    rw [parse_go]
    conv_rhs => rw [parse_go]
    rcases hc : read_command bytes pos st with ⟨st', p', r⟩
    have adv := read_command_snd bytes pos st
    rw [hc] at adv
    cases r with
    | ok b =>
      cases b with
      | false => simp only []
      | true =>
        simp only []
        have hb := adv (by simp)
        simp only [] at hb
        exact ih st' p' (by omega)
    | error e =>
      simp only []
      have hb := adv (by simp)
      simp only [] at hb
      exact ih st' p' (by omega)

/-- Fuel irrelevance for the command loop: the `bytes.length + 1` supplied
by `parse` never changes the outcome. -/
theorem parse_go_fuel_ge (bytes : List Nat) (k : Nat) :
    ∀ (fuel : Nat) (st : Parser) (pos : Nat), bytes.length < pos + 4 * fuel →
      parse_go bytes fuel st pos = parse_go bytes (fuel + k) st pos := by
  induction k with
  | zero => intro fuel st pos _; rfl
  | succ m ih =>
    intro fuel st pos h
    rw [ih fuel st pos h]
    have hs := parse_go_fuel_succ bytes (fuel + m) st pos (by omega)
    rw [hs]
    rfl

/-- C5: `Parser::parse` fails exactly when the 17-byte header is bad — the
source ends inside it, the magic is not `btrfs-stream\0`, or the version is
not 1 — and in that case no results are produced (the error carries none).
For every byte stream with a valid header, `parse` returns `Ok` with the
subvolumes the command loop completed: per-command errors are only logged
and the loop advances. -/
theorem C5_parse_ok_iff_header (bytes : List Nat) (settings : Settings) :
    (∃ r, parse bytes settings = .ok r) ↔
      (bytes.take 13 = CORRECT_MAGIC ∧ 17 ≤ bytes.length ∧
        leVal ((bytes.drop 13).take 4) = 1) := by
  unfold parse read_header
  by_cases h13 : (0 : Nat) + 13 ≤ min bytes.length bytes.length
  · have hx : readExact bytes bytes.length 0 13 = (some (bytes.take 13), 0 + 13) := by
      unfold readExact
      rw [if_pos h13]
      rw [List.drop_zero]
    rw [hx]
    simp only []
    by_cases hm : bytes.take 13 = CORRECT_MAGIC
    · rw [if_neg (by simp [hm])]
      by_cases h17 : (0 : Nat) + 13 + 4 ≤ min bytes.length bytes.length
      · rw [readUInt_success bytes bytes.length (0 + 13) 4 h17]
        simp only []
        by_cases hv : leVal ((bytes.drop (0 + 13)).take 4) = 1
        · rw [if_neg (by simp [hv])]
          constructor
          · intro _
            refine ⟨hm, by omega, ?_⟩
            simpa using hv
          · intro _
            exact ⟨_, rfl⟩
        · rw [if_pos (by simpa using hv)]
          constructor
          · rintro ⟨r, hr⟩
            exact absurd hr (by simp)
          · rintro ⟨-, -, h1⟩
            exact absurd (by simpa using h1) hv
      · rw [readUInt_fail bytes bytes.length (0 + 13) 4 h17]
        simp only []
        constructor
        · rintro ⟨r, hr⟩
          exact absurd hr (by simp)
        · rintro ⟨-, h1, -⟩
          omega
    · rw [if_pos (by simp [hm])]
      constructor
      · rintro ⟨r, hr⟩
        exact absurd hr (by simp)
      · rintro ⟨h1, -, -⟩
        exact absurd h1 hm
  · have hx : readExact bytes bytes.length 0 13
        = (none, max 0 (min bytes.length bytes.length)) := by
      unfold readExact
      rw [if_neg h13]
    rw [hx]
    simp only []
    constructor
    · rintro ⟨r, hr⟩
      exact absurd hr (by simp)
    · rintro ⟨-, h1, -⟩
      omega

/-- No arm of the command interpreter reads the parser's `settings`: the
result on a state differing only in `settings` differs only in `settings`. -/
theorem applyCommand_settings (c : Option SubvolumeInfo) (r : List SubvolumeInfo)
    (n : Nat) (d : Timestamp) (s1 s2 : Settings) (cmd : Command) (t : TLV) :
    applyCommand ⟨c, r, n, d, s1⟩ cmd t =
      (applyCommand ⟨c, r, n, d, s2⟩ cmd t).map
        (fun q => { q with settings := s1 }) := by
  cases cmd <;> simp only [applyCommand] <;> (repeat' split) <;>
    simp_all [Except.map]

/-- `read_command` reads the state's `settings` nowhere. -/
theorem read_command_settings (bytes : List Nat) (pos : Nat)
    (c : Option SubvolumeInfo) (r : List SubvolumeInfo) (n : Nat) (d : Timestamp)
    (s1 s2 : Settings) :
    read_command bytes pos ⟨c, r, n, d, s1⟩ =
      ({ (read_command bytes pos ⟨c, r, n, d, s2⟩).1 with settings := s1 },
        (read_command bytes pos ⟨c, r, n, d, s2⟩).2) := by
  unfold read_command
  rcases h4 : readUInt bytes bytes.length pos 4 with ⟨o, p1⟩
  cases o with
  | none => rfl
  | some size =>
    simp only []
    rcases h2 : readUInt bytes bytes.length p1 2 with ⟨o2, p2⟩
    cases o2 with
    | none => rfl
    | some cmd_id =>
      simp only []
      rcases h4b : readUInt bytes bytes.length p2 4 with ⟨o3, p3⟩
      cases o3 with
      | none => rfl
      | some cs =>
        simp only []
        rcases ht : read_tlvs bytes (p3 + size) p3 with ⟨o4, p4⟩
        cases o4 with
        | error e => rfl
        | ok tlv =>
          simp only []
          rw [applyCommand_settings c r (n + 1) d s1 s2 (Command.new cmd_id) tlv]
          rcases applyCommand ⟨c, r, n + 1, d, s2⟩ (Command.new cmd_id) tlv
            with _ | _ <;> rfl

/-- The command loop's outcome does not depend on the state's `settings`. -/
theorem parse_go_settings (bytes : List Nat) :
    ∀ (fuel : Nat) (c : Option SubvolumeInfo) (r : List SubvolumeInfo) (n : Nat)
      (d : Timestamp) (s1 s2 : Settings) (pos : Nat),
      parse_go bytes fuel ⟨c, r, n, d, s1⟩ pos = parse_go bytes fuel ⟨c, r, n, d, s2⟩ pos := by
  intro fuel
  induction fuel with
  | zero => intro c r n d s1 s2 pos; rfl
  | succ m ih =>
    intro c r n d s1 s2 pos
    rw [parse_go, parse_go]
    rw [read_command_settings bytes pos c r n d s1 s2]
    rcases hc : read_command bytes pos ⟨c, r, n, d, s2⟩ with ⟨st', p', res⟩
    cases res with
    | ok b =>
      cases b with
      | false => rfl
      | true =>
        simp only []
        exact ih st'.current_subvol st'.result st'.command_no st'.default_dt s1
          st'.settings p'
    | error e =>
      simp only []
      exact ih st'.current_subvol st'.result st'.command_no st'.default_dt s1
        st'.settings p'

/-- C9: the output of `Parser::parse` — outcome and subvolume list alike —
is the same whatever `settings.bypass_errors` is: the flag is stored but
never read, so the driver always bypasses per-command errors. -/
theorem C9_parse_ignores_settings (bytes : List Nat) (s1 s2 : Settings) :
    parse bytes s1 = parse bytes s2 := by
  unfold parse
  cases read_header bytes with
  | error e => rfl
  | ok pos =>
    simp only []
    exact congrArg Except.ok
      (parse_go_settings bytes (bytes.length + 1) none [] 0 sentinelDt s1 s2 pos)

/-! ### Subvolume file map lemmas and the Unlink/Rmdir effect (C1) -/

theorem Files.insert_same (m : Files) (k : MixedString) (v : Option FileInfo) :
    (m.insert k v) k = some v := by
  simp [Files.insert]

theorem Files.erase_same (m : Files) (k : MixedString) :
    (m.erase k) k = none := by
  simp [Files.erase]

/-- C1 amended: an Unlink or Rmdir command on a present key removes the key
from the files map outright — in non-overwrite mode just as in overwrite
mode — leaving no tombstone: the interpreter's Unlink/Rmdir arm calls
`files.remove` directly, never `del_file` (whose tombstone branch is dead
code as far as stream replay is concerned). -/
theorem C1_unlink_removes_key (st : Parser) (t : TLV) (cmd : Command)
    (path : MixedString) (sv : SubvolumeInfo) (slot : Option FileInfo)
    (hcmd : cmd = .Unlink ∨ cmd = .Rmdir)
    (hpath : t.Path = some path)
    (hsv : st.current_subvol = some sv)
    (hkey : sv.files path = some slot) :
    ((applyCommand st cmd t).toOption.bind Parser.current_subvol).map
      (fun sv' => sv'.files path) = some none := by
  rcases hcmd with rfl | rfl <;>
  · simp only [applyCommand, hpath, hsv, SubvolumeInfo.load_file, hkey]
    simp [Except.toOption, Option.bind, Files.erase]

/-- Witness for `C1_unlink_removes_key` on the concrete state `stA`
(non-overwrite subvolume holding `pPath`). -/
theorem C1_unlink_removes_key_witness :
    ((applyCommand stA .Unlink tUnlink).toOption.bind Parser.current_subvol).map
      (fun sv' => sv'.files pPath) = some none :=
  C1_unlink_removes_key stA tUnlink .Unlink pPath svA (some fileA)
    (Or.inl rfl) (by decide) rfl (by decide)

/-- C1 counterexample: replaying `c1bytes` — Snapshot (non-overwrite),
MkDir "p", Unlink "p", End — produces one snapshot with `overwrite = false`
whose files map has NO key "p" at all (`none`), not a tombstone entry
(`some none`) as the claim requires. -/
theorem C1_counterexample :
    ((parse c1bytes ⟨false⟩).toOption.bind List.head?).map
      (fun sv => (sv.overwrite, sv.files pPath)) = some (false, none) := by
  decide

/-! ### read_timespec and the checked seconds conversion (C6) -/

/-- C6 amended: on a window holding all 12 bytes, `read_timespec` reads the
little-endian u64 seconds and u32 nanoseconds and succeeds iff the seconds
fit in an `i64` (`i64::from_u64` is a CHECKED conversion — values above
`i64::MAX` fail with `InvalidData` instead of wrapping two's-complement)
and the pair passes chrono's calendar validation; all decode failures are
`InvalidData` and the position ends after the 12 bytes. -/
theorem C6_timespec_checked (bytes : List Nat) (w pos : Nat)
    (h : pos + 12 ≤ min w bytes.length) :
    read_timespec bytes w pos = (timespecChecked bytes pos, pos + 12) := by
  unfold read_timespec timespecChecked
  rw [readUInt_success bytes w pos 8 (by omega)]
  simp only []
  rw [readUInt_success bytes w (pos + 8) 4 (by omega)]
  simp only []
  unfold i64_from_u64 from_timestamp_opt
  by_cases h1 : leVal ((bytes.drop pos).take 8) < 2 ^ 63
  · rw [if_pos h1]
    simp only []
    by_cases h2 : leVal ((bytes.drop (pos + 8)).take 4) < 2000000000 ∧
        chronoMinSecs ≤ (leVal ((bytes.drop pos).take 8) : Int) ∧
        (leVal ((bytes.drop pos).take 8) : Int) ≤ chronoMaxSecs
    · rw [if_pos h2, if_pos ⟨h1, h2⟩]
    · rw [if_neg h2, if_neg (by tauto)]
  · rw [if_neg h1]
    simp only []
    rw [if_neg (by tauto)]

/-- Witness for `C6_timespec_checked` at the all-zero timespec (epoch). -/
theorem C6_timespec_checked_witness :
    read_timespec c6zeros 12 0 = (timespecChecked c6zeros 0, 0 + 12) :=
  C6_timespec_checked c6zeros 12 0 (by decide)

/-- C6 counterexample: on seconds `u64::MAX` the claim's two's-complement
reading demands success with `-1` seconds (a valid calendar timestamp one
second before the epoch), but the source's checked conversion fails with
`InvalidData` ("Too much seconds"). -/
theorem C6_counterexample :
    read_timespec c6bytes 12 0 = (.error .invalidData, 12) ∧
      read_timespec_claim c6bytes 12 0 = (.ok ⟨-1, 0⟩, 12) := by
  refine ⟨?_, ?_⟩ <;> decide

/-! ### Utimes defaults (C7) -/

/-- C7: for a Utimes command on an existing, non-tombstoned path, each
present TLV of {Atime, Ctime, Mtime} sets the corresponding
accessed/created/modified field to its decoded value and each omitted TLV
sets it to the parser's sentinel `default_dt` = 99999-12-31 23:58:59
(`sentinelDt`); `Option.getD` quantifies over every subset at once.  All
other fields of the entry are untouched. -/
theorem C7_utimes_sentinel_defaults (st : Parser) (t : TLV) (path : MixedString)
    (sv : SubvolumeInfo) (info : FileInfo)
    (hpath : t.Path = some path)
    (hsv : st.current_subvol = some sv)
    (hfile : sv.files path = some (some info))
    (hdt : st.default_dt = sentinelDt) :
    applyCommand st .Utimes t = .ok
      { st with
        current_subvol := some { sv with
          files := sv.files.insert path (some { info with
            accessed := t.Atime.getD sentinelDt
            created := t.Ctime.getD sentinelDt
            modified := t.Mtime.getD sentinelDt }) } } := by
  simp only [applyCommand, hpath, hdt, SubvolumeInfo.modify, SubvolumeInfo.load_file,
    hsv, hfile]

/-- Witness for `C7_utimes_sentinel_defaults`: state `stA`, a bag with only
Atime present; accessed becomes ⟨5, 6⟩ while created and modified fall back
to the sentinel. -/
theorem C7_utimes_sentinel_defaults_witness :
    applyCommand stA .Utimes tUtimes = .ok
      { stA with
        current_subvol := some { svA with
          files := svA.files.insert pPath (some { fileA with
            accessed := tUtimes.Atime.getD sentinelDt
            created := tUtimes.Ctime.getD sentinelDt
            modified := tUtimes.Mtime.getD sentinelDt }) } } :=
  C7_utimes_sentinel_defaults stA tUtimes pPath svA fileA (by decide) rfl
    (by decide) rfl

/-! ### Rename moves the slot unchanged (C10) -/

/-- C10: a successful Rename pops the slot stored under Path and inserts
that very value under PathTo: every field — the `filename` included — is
unchanged, so the moved entry's `filename` still holds the old path rather
than the new key (unlike Link/Clone, whose `copy_file` rewrites the copy's
`filename` to the destination).  When the two paths differ, nothing remains
under Path. -/
theorem C10_rename_preserves_slot (st : Parser) (t : TLV) (fromP toP : MixedString)
    (sv : SubvolumeInfo) (slot : Option FileInfo)
    (hfrom : t.Path = some fromP)
    (hto : t.PathTo = some toP)
    (hsv : st.current_subvol = some sv)
    (hkey : sv.files fromP = some slot) :
    applyCommand st .Rename t = .ok
        { st with
          current_subvol := some { sv with
            files := (sv.files.erase fromP).insert toP slot } } ∧
      ((sv.files.erase fromP).insert toP slot) toP = some slot ∧
      (fromP ≠ toP → ((sv.files.erase fromP).insert toP slot) fromP = none) := by
  refine ⟨?_, ?_, ?_⟩
  · simp only [applyCommand, hfrom, hto, hsv, SubvolumeInfo.load_file,
      SubvolumeInfo.pop_file, hkey]
  · simp [Files.insert]
  · intro hne
    simp [Files.insert, Files.erase, hne]

/-- Witness for `C10_rename_preserves_slot`: renaming "p" to "q" in `stA`
moves `fileA` — whose `filename` is still `pPath` — under `qPath` and
leaves nothing under `pPath`. -/
theorem C10_rename_preserves_slot_witness :
    applyCommand stA .Rename tRename = .ok
        { stA with
          current_subvol := some { svA with
            files := (svA.files.erase pPath).insert qPath (some fileA) } } ∧
      ((svA.files.erase pPath).insert qPath (some fileA)) qPath = some (some fileA) ∧
      (pPath ≠ qPath → ((svA.files.erase pPath).insert qPath (some fileA)) pPath = none) :=
  C10_rename_preserves_slot stA tRename pPath qPath svA (some fileA)
    (by decide) (by decide) rfl (by decide)

end FileSearch
